import Mathlib

/-!
Verification development for the offkey repository (src/offkey/cli.py,
src/offkey/metrics.py, src/offkey/util.py).

Embedding conventions:
* Numeric metric values and thresholds are embedded as `Int`.  The threshold
  logic of `_check_val_against_thresh` is purely order-theoretic, and `Int`
  rendering by `toString` agrees with Python's formatting of integers, so the
  diagnostic strings are faithful for integral values.
* Axis values (Elasticsearch bucket keys) are embedded as `String`.
* Python code that can raise (assertions, KeyError, IndexError) is embedded
  with `Option`, `none` standing for the raised error.
-/

namespace Offkey

/-- Canonical severity level order, from the loop header in cli.py line 143. -/
def levels : List String := ["info", "warning", "error", "critical"]

/-- Rank of a severity level name in the canonical order; 0 for unknown. -/
def levelRank (l : String) : Nat :=
  if l = "info" then 1
  else if l = "warning" then 2
  else if l = "error" then 3
  else if l = "critical" then 4
  else 0

/-- Rank of an optional severity, with `none` (no severity) ranked lowest. -/
def sevRank : Option String → Nat
  | none => 0
  | some l => levelRank l

/-- One metric's threshold configuration: the per-level entries of the
`metrics` dicts in cli.py's CONFIGS, each level optional, plus `message`. -/
structure ThreshConfig where
  info : Option Int := none
  warning : Option Int := none
  error : Option Int := none
  critical : Option Int := none
  message : Option String := none
deriving DecidableEq, Repr

/-- Convenience constructor for a fully populated ladder. -/
def ladder4 (i w e c : Int) : ThreshConfig :=
  { info := some i, warning := some w, error := some e, critical := some c }

/-- Lookup of `thresh_config.get(level)` for the four level names. -/
def cfgGet (cfg : ThreshConfig) : String → Option Int
  | "info" => cfg.info
  | "warning" => cfg.warning
  | "error" => cfg.error
  | "critical" => cfg.critical
  | _ => none

/-- The filtered (level, threshold) list `tl` built by cli.py lines 142-146:
levels in canonical order, keeping those with a defined threshold. -/
def tl (cfg : ThreshConfig) : List (String × Int) :=
  levels.filterMap fun l => (cfgGet cfg l).map fun t => (l, t)

/-- The threshold values `tvs` of cli.py line 150. -/
def tvs (cfg : ThreshConfig) : List Int := (tl cfg).map Prod.snd

/-- cli.py `strictly_increasing`: all adjacent pairs `x < y` (zip of L with
its tail). -/
def strictly_increasing : List Int → Bool
  | x :: y :: rest => decide (x < y) && strictly_increasing (y :: rest)
  | _ => true

/-- cli.py `strictly_decreasing`: all adjacent pairs `x > y`. -/
def strictly_decreasing : List Int → Bool
  | x :: y :: rest => decide (x > y) && strictly_decreasing (y :: rest)
  | _ => true

/-- The walk of cli.py lines 158-163: iterate the (level, threshold) list,
breaking at the first `val < thresh` (ascending) or `val > thresh`
(descending); the accumulator holds the last (severity, ref) seen. -/
def walkLoop (si : Bool) (val : Int) :
    List (String × Int) → Option (String × Int) → Option (String × Int)
  | [], acc => acc
  | (l, t) :: rest, acc =>
      if (si && decide (val < t)) || (!si && decide (val > t)) then acc
      else walkLoop si val rest (some (l, t))

/-- cli.py `_check_val_against_thresh` (lines 141-170).  Returns `none` when
the `assert si or sd` on line 153 fails, otherwise `some (severity, diag)`.
The Python locals `si`/`sd` are inlined. -/
def _check_val_against_thresh (val : Int) (cfg : ThreshConfig) :
    Option (Option String × Option String) :=
  if tl cfg = [] then some (none, none)
  else if strictly_increasing (tvs cfg) || strictly_decreasing (tvs cfg) then
    match walkLoop (strictly_increasing (tvs cfg)) val (tl cfg) none with
    | none => some (none, none)
    | some (sev, ref) =>
        some (some sev,
          some (toString val ++
            (if strictly_increasing (tvs cfg) then " >= " else " <= ") ++
            toString ref))
  else none

/-- Severity component of an evaluation, `none` both when no threshold is
crossed and when the assertion fails. -/
def severityOf (val : Int) (cfg : ThreshConfig) : Option String :=
  match _check_val_against_thresh val cfg with
  | some (s, _) => s
  | none => none

theorem strictly_increasing_of_short (L : List Int) (h : L.length ≤ 1) :
    strictly_increasing L = true := by
  match L, h with
  | [], _ => rfl
  | [_], _ => rfl

theorem tl_ladder4 (i w e c : Int) :
    tl (ladder4 i w e c) =
      [("info", i), ("warning", w), ("error", e), ("critical", c)] := by
  simp [tl, ladder4, levels, cfgGet]

/-- C2: for a fully populated ladder with strictly increasing thresholds
i < w < e < c and a value v with e ≤ v < c, the evaluation returns severity
"error" and the diagnostic "v >= e". -/
theorem check_error_band (i w e c v : Int)
    (hiw : i < w) (hwe : w < e) (hec : e < c) (hev : e ≤ v) (hvc : v < c) :
    _check_val_against_thresh v (ladder4 i w e c) =
      some (some "error", some (toString v ++ " >= " ++ toString e)) := by
  have htl := tl_ladder4 i w e c
  have hsi : strictly_increasing (tvs (ladder4 i w e c)) = true := by
    simp [tvs, htl, strictly_increasing, hiw, hwe, hec]
  have hvi : ¬ v < i := by omega
  have hvw : ¬ v < w := by omega
  have hve : ¬ v < e := by omega
  simp [_check_val_against_thresh, htl, hsi, walkLoop, hvi, hvw, hve, hvc]

/-- C2 witness at a concrete ladder and value. -/
theorem check_error_band_witness :
    _check_val_against_thresh 97 (ladder4 90 95 97 99) =
      some (some "error", some ("97 >= 97")) := by
  have h := check_error_band 90 95 97 99 97
    (by decide) (by decide) (by decide) (by decide) (by decide)
  simpa using h

/-- C6: the evaluation hits the assertion (returns `none`) exactly when the
defined thresholds, in canonical level order, form a sequence of length at
least two that is neither strictly increasing nor strictly decreasing; every
monotonic ladder (including empty and single-threshold ones) returns
normally. -/
theorem check_assertion_iff (val : Int) (cfg : ThreshConfig) :
    _check_val_against_thresh val cfg = none ↔
      2 ≤ (tl cfg).length ∧ strictly_increasing (tvs cfg) = false ∧
        strictly_decreasing (tvs cfg) = false := by
  unfold _check_val_against_thresh
  by_cases hnil : tl cfg = []
  · simp [hnil]
  · cases hsi : strictly_increasing (tvs cfg) with
    | true =>
        simp only [hnil, if_false, hsi, Bool.true_or, if_true]
        constructor
        · intro h
          exfalso
          cases hwalk : walkLoop true val (tl cfg) none with
          | none => rw [hwalk] at h; simp at h
          | some p => rw [hwalk] at h; cases p; simp at h
        · rintro ⟨-, hsi2, -⟩
          exact absurd hsi2 (by simp)
    | false =>
        cases hsd : strictly_decreasing (tvs cfg) with
        | true =>
            simp only [hnil, if_false, hsi, hsd, Bool.false_or, if_true]
            constructor
            · intro h
              exfalso
              cases hwalk : walkLoop false val (tl cfg) none with
              | none => rw [hwalk] at h; simp at h
              | some p => rw [hwalk] at h; cases p; simp at h
            · rintro ⟨-, -, hsd2⟩
              exact absurd hsd2 (by simp)
        | false =>
            simp only [hnil, if_false, hsi, hsd, Bool.or_self]
            constructor
            · intro _
              refine ⟨?_, by simp, by simp⟩
              by_contra hlen
              push_neg at hlen
              have hle : (tvs cfg).length ≤ 1 := by
                have hh : (tvs cfg).length = (tl cfg).length := by
                  simp [tvs]
                omega
              rw [strictly_increasing_of_short _ hle] at hsi
              cases hsi
            · intro _
              trivial

/-- Rank of a walk accumulator: 0 for `None`, the level rank otherwise. -/
def accRank : Option (String × Int) → Nat
  | none => 0
  | some p => levelRank p.1

theorem walkLoop_false_cons (val : Int) (l0 : String) (t0 : Int)
    (rest : List (String × Int)) (acc : Option (String × Int)) :
    walkLoop false val ((l0, t0) :: rest) acc =
      if val > t0 then acc else walkLoop false val rest (some (l0, t0)) := by
  rw [walkLoop]
  by_cases h : val > t0 <;> simp [h]

theorem walkLoop_true_cons (val : Int) (l0 : String) (t0 : Int)
    (rest : List (String × Int)) (acc : Option (String × Int)) :
    walkLoop true val ((l0, t0) :: rest) acc =
      if val < t0 then acc else walkLoop true val rest (some (l0, t0)) := by
  rw [walkLoop]
  by_cases h : val < t0 <;> simp [h]

/-- The walk either keeps its accumulator or stops at one of the list's own
entries. -/
theorem walkLoop_result (si : Bool) (val : Int) (l : List (String × Int))
    (acc : Option (String × Int)) :
    walkLoop si val l acc = acc ∨
      ∃ p ∈ l, walkLoop si val l acc = some p := by
  induction l generalizing acc with
  | nil => exact Or.inl rfl
  | cons hd rest ih =>
      obtain ⟨lv, t⟩ := hd
      rw [walkLoop]
      split
      · exact Or.inl rfl
      · rcases ih (some (lv, t)) with h | ⟨p, hp, h⟩
        · exact Or.inr ⟨(lv, t), List.mem_cons_self _ _, by rw [h]⟩
        · exact Or.inr ⟨p, List.mem_cons_of_mem _ hp, h⟩

/-- Descending walk: a value strictly below the threshold of some listed
level ends the walk at that level or a later (more severe) one. -/
theorem walkLoop_desc_reach (val : Int) (l : List (String × Int)) :
    ∀ (acc : Option (String × Int)) (lv : String) (t : Int),
      l.Pairwise (fun a b => b.2 < a.2) →
      l.Pairwise (fun a b => levelRank a.1 < levelRank b.1) →
      (lv, t) ∈ l → val < t →
      levelRank lv ≤ accRank (walkLoop false val l acc) := by
  induction l with
  | nil =>
      intro acc lv t _ _ hmem _
      exact absurd hmem (List.not_mem_nil _)
  | cons hd rest ih =>
      intro acc lv t hth hrk hmem hvt
      obtain ⟨l0, t0⟩ := hd
      have hth' := List.pairwise_cons.mp hth
      have hrk' := List.pairwise_cons.mp hrk
      rw [walkLoop_false_cons]
      rcases List.mem_cons.mp hmem with heq | hmem'
      · cases heq
        rw [if_neg (by omega)]
        rcases walkLoop_result false val rest (some (lv, t)) with h | ⟨p, hp, h⟩
        · rw [h]
          exact le_refl _
        · rw [h]
          exact le_of_lt (hrk'.1 p hp)
      · have htt0 : t < t0 := hth'.1 (lv, t) hmem'
        rw [if_neg (by omega)]
        exact ih (some (l0, t0)) lv t hth'.2 hrk'.2 hmem' hvt

/-- Ascending walk: the accumulator rank of the walk result is monotone in
the value, provided the listed levels have increasing ranks and all exceed
the starting accumulator's rank. -/
theorem walkLoop_asc_mono (v1 v2 : Int) (h12 : v1 ≤ v2)
    (l : List (String × Int)) :
    ∀ (acc : Option (String × Int)),
      l.Pairwise (fun a b => levelRank a.1 < levelRank b.1) →
      (∀ p ∈ l, accRank acc < levelRank p.1) →
      accRank (walkLoop true v1 l acc) ≤ accRank (walkLoop true v2 l acc) := by
  induction l with
  | nil =>
      intro acc _ _
      exact le_refl _
  | cons hd rest ih =>
      intro acc hrk hacc
      obtain ⟨l0, t0⟩ := hd
      rw [walkLoop_true_cons, walkLoop_true_cons]
      by_cases h1 : v1 < t0
      · rw [if_pos h1]
        by_cases h2 : v2 < t0
        · rw [if_pos h2]
        · rw [if_neg h2]
          rcases walkLoop_result true v2 rest (some (l0, t0)) with h | ⟨p, hp, h⟩
          · rw [h]
            exact le_of_lt (hacc _ (List.mem_cons_self _ _))
          · rw [h]
            exact le_of_lt (hacc p (List.mem_cons_of_mem _ hp))
      · have h2 : ¬ v2 < t0 := by omega
        rw [if_neg h1, if_neg h2]
        apply ih (some (l0, t0)) (List.pairwise_cons.mp hrk).2
        intro p hp
        exact (List.pairwise_cons.mp hrk).1 p hp

theorem tl_mem_fst (cfg : ThreshConfig) (p : String × Int) (hp : p ∈ tl cfg) :
    p.1 ∈ levels ∧ cfgGet cfg p.1 = some p.2 := by
  rw [tl, List.mem_filterMap] at hp
  obtain ⟨l, hl, hfl⟩ := hp
  cases h : cfgGet cfg l with
  | none => rw [h] at hfl; simp at hfl
  | some t =>
      rw [h] at hfl
      simp only [Option.map_some', Option.some.injEq] at hfl
      rw [← hfl]
      exact ⟨hl, h⟩

theorem tl_mem_rank_pos (cfg : ThreshConfig) (p : String × Int)
    (hp : p ∈ tl cfg) : 1 ≤ levelRank p.1 := by
  have h := (tl_mem_fst cfg p hp).1
  simp only [levels, List.mem_cons, List.not_mem_nil, or_false] at h
  rcases h with h | h | h | h <;> rw [h] <;> decide

theorem tl_rank_pairwise (cfg : ThreshConfig) :
    (tl cfg).Pairwise (fun a b => levelRank a.1 < levelRank b.1) := by
  obtain ⟨i, w, e, c, m⟩ := cfg
  rcases i with _ | i <;> rcases w with _ | w <;> rcases e with _ | e <;>
    rcases c with _ | c <;>
    simp [tl, levels, cfgGet, List.pairwise_cons, levelRank]

theorem strictly_decreasing_iff_chain (L : List Int) :
    strictly_decreasing L = true ↔ L.Chain' (fun x y => y < x) := by
  induction L with
  | nil => simp [strictly_decreasing]
  | cons x L' ih =>
      cases L' with
      | nil => simp [strictly_decreasing]
      | cons y rest =>
          rw [strictly_decreasing, List.chain'_cons, Bool.and_eq_true,
            decide_eq_true_eq, ih]

theorem tl_thresh_pairwise (cfg : ThreshConfig)
    (hsd : strictly_decreasing (tvs cfg) = true) :
    (tl cfg).Pairwise (fun a b => b.2 < a.2) := by
  haveI : IsTrans Int (fun x y => y < x) :=
    ⟨fun a b c h1 h2 => lt_trans h2 h1⟩
  have hch := (strictly_decreasing_iff_chain (tvs cfg)).mp hsd
  have hpw := List.chain'_iff_pairwise.mp hch
  rw [tvs, List.pairwise_map] at hpw
  exact hpw

theorem si_false_of_sd (L : List Int)
    (hsd : strictly_decreasing L = true) (hlen : 2 ≤ L.length) :
    strictly_increasing L = false := by
  cases L with
  | nil => simp at hlen
  | cons x L' =>
      cases L' with
      | nil => simp at hlen
      | cons y rest =>
          rw [strictly_decreasing, Bool.and_eq_true, decide_eq_true_eq] at hsd
          rw [strictly_increasing]
          have : ¬ x < y := by omega
          simp [this]

/-- C3: for a ladder with at least two defined thresholds that is strictly
decreasing in canonical level order, (a) a value strictly below the
threshold of a defined level is classified at that level or a more severe
one, and (b) whenever a severity is returned, the diagnostic has the form
"value <= matched threshold" with the matched threshold taken from the
ladder entry of the returned severity. -/
theorem check_desc_spec (cfg : ThreshConfig) (v : Int)
    (hsd : strictly_decreasing (tvs cfg) = true)
    (hlen : 2 ≤ (tl cfg).length) :
    (∀ lv t, (lv, t) ∈ tl cfg → v < t →
        ∃ s r, _check_val_against_thresh v cfg =
            some (some s, some (toString v ++ " <= " ++ toString r)) ∧
          levelRank lv ≤ levelRank s ∧ (s, r) ∈ tl cfg) ∧
    (∀ s d, _check_val_against_thresh v cfg = some (some s, d) →
        ∃ r, (s, r) ∈ tl cfg ∧
          d = some (toString v ++ " <= " ++ toString r)) := by
  have hnil : ¬ tl cfg = [] := by
    intro h
    rw [h] at hlen
    simp at hlen
  have hsi : strictly_increasing (tvs cfg) = false := by
    apply si_false_of_sd _ hsd
    have : (tvs cfg).length = (tl cfg).length := by simp [tvs]
    omega
  have hthpw := tl_thresh_pairwise cfg hsd
  have hrkpw := tl_rank_pairwise cfg
  constructor
  · intro lv t hmem hvt
    have hreach := walkLoop_desc_reach v (tl cfg) none lv t hthpw hrkpw hmem hvt
    have hpos : 1 ≤ levelRank lv := tl_mem_rank_pos cfg (lv, t) hmem
    cases hwalk : walkLoop false v (tl cfg) none with
    | none =>
        rw [hwalk] at hreach
        exact absurd hreach (by simp [accRank]; omega)
    | some p =>
        obtain ⟨s, r⟩ := p
        refine ⟨s, r, ?_, ?_, ?_⟩
        · unfold _check_val_against_thresh
          rw [if_neg hnil, hsi, hsd]
          simp only [Bool.false_or, if_true]
          rw [hwalk]
          simp [String.append_assoc]
        · rw [hwalk] at hreach
          exact hreach
        · rcases walkLoop_result false v (tl cfg) none with h | ⟨q, hq, h⟩
          · rw [h] at hwalk
            cases hwalk
          · rw [h] at hwalk
            injection hwalk with h'
            rw [← h']
            exact hq
  · intro s d hcheck
    unfold _check_val_against_thresh at hcheck
    rw [if_neg hnil, hsi, hsd] at hcheck
    simp only [Bool.false_or, if_true] at hcheck
    cases hwalk : walkLoop false v (tl cfg) none with
    | none =>
        rw [hwalk] at hcheck
        simp at hcheck
    | some p =>
        obtain ⟨s', r⟩ := p
        rw [hwalk] at hcheck
        simp only [Option.some.injEq, Prod.mk.injEq] at hcheck
        obtain ⟨hs, hd⟩ := hcheck
        refine ⟨r, ?_, ?_⟩
        · rcases walkLoop_result false v (tl cfg) none with h | ⟨q, hq, h⟩
          · rw [h] at hwalk
            cases hwalk
          · rw [h] at hwalk
            injection hwalk with h'
            rw [← hs, ← h']
            exact hq
        · rw [← hd]
          simp [String.append_assoc]

/-- C3 witness at a concrete descending ladder and value. -/
theorem check_desc_spec_witness :
    ∃ s r, _check_val_against_thresh 25 (ladder4 40 30 20 10) =
        some (some s, some (toString (25 : Int) ++ " <= " ++ toString r)) ∧
      levelRank "warning" ≤ levelRank s ∧ (s, r) ∈ tl (ladder4 40 30 20 10) :=
  (check_desc_spec (ladder4 40 30 20 10) 25 (by decide) (by decide)).1
    "warning" 30 (by decide) (by decide)

/-- C10: for a ladder with strictly increasing defined thresholds, the
returned severity is monotone non-decreasing in the value, in the order
none < info < warning < error < critical. -/
theorem check_monotone (cfg : ThreshConfig) (v1 v2 : Int)
    (hsi : strictly_increasing (tvs cfg) = true) (h12 : v1 ≤ v2) :
    sevRank (severityOf v1 cfg) ≤ sevRank (severityOf v2 cfg) := by
  by_cases hnil : tl cfg = []
  · simp [severityOf, _check_val_against_thresh, hnil, sevRank]
  · have hSev : ∀ v : Int, sevRank (severityOf v cfg) =
        accRank (walkLoop true v (tl cfg) none) := by
      intro v
      unfold severityOf _check_val_against_thresh
      rw [if_neg hnil, hsi]
      simp only [Bool.true_or, if_true]
      cases hwalk : walkLoop true v (tl cfg) none with
      | none => simp [hwalk, sevRank, accRank]
      | some p =>
          obtain ⟨s, r⟩ := p
          simp [hwalk, sevRank, accRank]
    rw [hSev v1, hSev v2]
    exact walkLoop_asc_mono v1 v2 h12 (tl cfg) none (tl_rank_pairwise cfg)
      (fun p hp => lt_of_lt_of_le Nat.zero_lt_one (tl_mem_rank_pos cfg p hp))

/-- C10 witness at a concrete increasing ladder and two ordered values. -/
theorem check_monotone_witness :
    sevRank (severityOf 91 (ladder4 90 95 97 99)) ≤
      sevRank (severityOf 96 (ladder4 90 95 97 99)) :=
  check_monotone (ladder4 90 95 97 99) 91 96 (by decide) (by decide)

/-- Path component of a flattened path: a mapping key or a sequence index,
as in util.py `_flatten` (lines 91-99). -/
inductive PKey where
  | str : String → PKey
  | idx : Nat → PKey
deriving DecidableEq, Repr

/-- Nested containers handled by util.py `flatten`: mappings, sequences and
numeric leaves (the tabulated results it is applied to have aggregate
values at the leaves). -/
inductive Nested where
  | map : List (String × Nested) → Nested
  | seq : List Nested → Nested
  | leaf : Int → Nested

/-- util.py `_flatten` (lines 91-99): recursive descent accumulating the
path, yielding one (path, value) pair per leaf.  Mapping items contribute
their key, sequence items their `enumerate` index.  The `attach` wrappers
only carry membership proofs for termination. -/
def _flatten (pfx : List PKey) : Nested → List (List PKey × Int)
  | .map es => es.attach.flatMap fun kv =>
      _flatten (pfx ++ [PKey.str kv.1.1]) kv.1.2
  | .seq vs => vs.attach.enum.flatMap fun iv =>
      _flatten (pfx ++ [PKey.idx iv.1]) iv.2.1
  | .leaf v => [(pfx, v)]
termination_by o => sizeOf o
decreasing_by
  · have h1 := List.sizeOf_lt_of_mem kv.2
    obtain ⟨⟨k, v⟩, hkv⟩ := kv
    simp at h1 ⊢
    omega
  · have h1 := List.sizeOf_lt_of_mem iv.2.2
    obtain ⟨i, ⟨x, hx⟩⟩ := iv
    simp at h1 ⊢
    omega

/-- util.py `flatten` (lines 86-88): `_flatten` from the empty path. -/
def flatten (o : Nested) : List (List PKey × Int) := _flatten [] o

/-- Number of leaves of a nested structure. -/
def countLeaves : Nested → Nat
  | .map es => (es.attach.map fun kv => countLeaves kv.1.2).sum
  | .seq vs => (vs.attach.map fun x => countLeaves x.1).sum
  | .leaf _ => 1
termination_by o => sizeOf o
decreasing_by
  · have h1 := List.sizeOf_lt_of_mem kv.2
    obtain ⟨⟨k, v⟩, hkv⟩ := kv
    simp at h1 ⊢
    omega
  · have h1 := List.sizeOf_lt_of_mem x.2
    obtain ⟨y, hy⟩ := x
    simp at h1 ⊢
    omega

/-- Induction principle for `Nested` exposing list membership. -/
theorem Nested.ind (P : Nested → Prop)
    (hleaf : ∀ v, P (.leaf v))
    (hmap : ∀ es, (∀ kv ∈ es, P kv.2) → P (.map es))
    (hseq : ∀ vs, (∀ x ∈ vs, P x) → P (.seq vs)) : ∀ o, P o
  | .leaf v => hleaf v
  | .map es => hmap es fun kv _ => Nested.ind P hleaf hmap hseq kv.2
  | .seq vs => hseq vs fun x _ => Nested.ind P hleaf hmap hseq x
termination_by o => sizeOf o
decreasing_by
  · rename_i hkv
    have h1 := List.sizeOf_lt_of_mem hkv
    obtain ⟨k, v⟩ := kv
    simp at h1 ⊢
    omega
  · rename_i hx
    have h1 := List.sizeOf_lt_of_mem hx
    simp at h1 ⊢
    omega

theorem flatMap_attach {α β : Type} (l : List α) (g : α → List β) :
    l.attach.flatMap (fun x => g x.1) = l.flatMap g := by
  rw [← List.flatMap_map Subtype.val g l.attach]
  congr 1
  simpa using List.attach_map_val l id

theorem flatMap_attach_enum {α β : Type} (l : List α) (g : Nat → α → List β) :
    l.attach.enum.flatMap (fun iv => g iv.1 iv.2.1) =
      l.enum.flatMap (fun iv => g iv.1 iv.2) := by
  have hl : l.enum = l.attach.enum.map (Prod.map id Subtype.val) := by
    have h1 : l = l.attach.map Subtype.val := by
      simpa using (List.attach_map_val l id).symm
    conv_lhs => rw [h1]
    rw [List.enum_map]
  rw [hl, List.flatMap_map]
  rfl

theorem _flatten_shift (o : Nested) : ∀ pfx : List PKey,
    _flatten pfx o = (_flatten [] o).map fun pr => (pfx ++ pr.1, pr.2) := by
  induction o using Nested.ind with
  | hleaf v => intro pfx; simp [_flatten]
  | hmap es ih =>
      intro pfx
      rw [_flatten.eq_1, _flatten.eq_1, List.map_flatMap]
      apply List.flatMap_congr
      intro kv _
      rw [ih kv.1 kv.2 (pfx ++ [PKey.str kv.1.1]),
        ih kv.1 kv.2 ([] ++ [PKey.str kv.1.1]), List.map_map]
      apply List.map_congr_left
      intro pr _
      simp
  | hseq vs ih =>
      intro pfx
      rw [_flatten.eq_2, _flatten.eq_2, List.map_flatMap]
      apply List.flatMap_congr
      intro iv _
      rw [ih iv.2.1 iv.2.2 (pfx ++ [PKey.idx iv.1]),
        ih iv.2.1 iv.2.2 ([] ++ [PKey.idx iv.1]), List.map_map]
      apply List.map_congr_left
      intro pr _
      simp

theorem flatten_leaf (v : Int) : flatten (.leaf v) = [([], v)] := by
  simp [flatten, _flatten]

theorem flatten_map (es : List (String × Nested)) :
    flatten (.map es) = es.flatMap fun kv =>
      (flatten kv.2).map fun pr => (PKey.str kv.1 :: pr.1, pr.2) := by
  rw [flatten, _flatten.eq_1, ← flatMap_attach es
    (fun kv => (flatten kv.2).map fun pr => (PKey.str kv.1 :: pr.1, pr.2))]
  apply List.flatMap_congr
  intro kv _
  rw [_flatten_shift kv.1.2 ([] ++ [PKey.str kv.1.1])]
  rw [flatten]
  apply List.map_congr_left
  intro pr _
  simp

theorem flatten_seq (vs : List Nested) :
    flatten (.seq vs) = vs.enum.flatMap fun iv =>
      (flatten iv.2).map fun pr => (PKey.idx iv.1 :: pr.1, pr.2) := by
  rw [flatten, _flatten.eq_2, ← flatMap_attach_enum vs
    (fun i x => (flatten x).map fun pr => (PKey.idx i :: pr.1, pr.2))]
  apply List.flatMap_congr
  intro iv _
  rw [_flatten_shift iv.2.1 ([] ++ [PKey.idx iv.1])]
  rw [flatten]
  apply List.map_congr_left
  intro pr _
  simp

theorem length_flatten (o : Nested) : (flatten o).length = countLeaves o := by
  induction o using Nested.ind with
  | hleaf v => simp [flatten_leaf, countLeaves]
  | hmap es ih =>
      rw [flatten_map, List.length_flatMap, countLeaves.eq_1,
        List.attach_map_val es (fun kv => countLeaves kv.2)]
      congr 1
      apply List.map_congr_left
      intro kv hkv
      simp [Function.comp, ih kv hkv]
  | hseq vs ih =>
      rw [flatten_seq, List.length_flatMap, countLeaves.eq_2,
        List.attach_map_val vs countLeaves]
      conv_rhs => rw [← List.enum_map_snd vs, List.map_map]
      congr 1
      apply List.map_congr_left
      intro iv hiv
      have hm : iv.2 ∈ vs := by
        rw [← List.enum_map_snd vs]
        exact List.mem_map_of_mem Prod.snd hiv
      simp [Function.comp, ih iv.2 hm]

/-- C7: flatten terminates on every nested structure (it is a total
function here), yielding a finite list with exactly one (path, value) pair
per leaf; a mapping contributes its key and a sequence its 0-based
enumerate index as the path component; and as a pure function it yields the
same pairs whenever it is restarted on the same input. -/
theorem flatten_spec :
    (∀ v, flatten (Nested.leaf v) = [([], v)]) ∧
    (∀ es, flatten (Nested.map es) = es.flatMap fun kv =>
        (flatten kv.2).map fun pr => (PKey.str kv.1 :: pr.1, pr.2)) ∧
    (∀ vs, flatten (Nested.seq vs) = vs.enum.flatMap fun iv =>
        (flatten iv.2).map fun pr => (PKey.idx iv.1 :: pr.1, pr.2)) ∧
    (∀ o, (flatten o).length = countLeaves o) :=
  ⟨flatten_leaf, flatten_map, flatten_seq, length_flatten⟩

/-- Broken-down UTC time, the relevant fields of Python's `time.gmtime`
result. -/
structure Tm where
  year : Nat
  mon : Nat
  mday : Nat
  hour : Nat
  minute : Nat
  sec : Nat
deriving DecidableEq, Repr

/-- Civil date from a count of days since 1970-01-01 (the standard
era-based conversion used to model `time.gmtime`'s date part; valid for
nonnegative day counts). -/
def civilFromDays (z0 : Nat) : Nat × Nat × Nat :=
  let z := z0 + 719468
  let era := z / 146097
  let doe := z % 146097
  let yoe := (doe - doe / 1460 + doe / 36524 - doe / 146096) / 365
  let y := yoe + era * 400
  let doy := doe - (365 * yoe + yoe / 4 - yoe / 100)
  let mp := (5 * doy + 2) / 153
  let d := doy - (153 * mp + 2) / 5 + 1
  let m := if mp < 10 then mp + 3 else mp - 9
  (if m ≤ 2 then y + 1 else y, m, d)

/-- Model of Python `time.gmtime` for nonnegative UNIX timestamps. -/
def gmtime (t : Nat) : Tm :=
  let days := t / 86400
  let rem := t % 86400
  let ymd := civilFromDays days
  ⟨ymd.1, ymd.2.1, ymd.2.2, rem / 3600, rem % 3600 / 60, rem % 60⟩

/-- Zero-pad a number to two digits, as strftime's %m/%d/%H/%M/%S do.
All fields formatted this way are below 100, where this agrees with
Python's `%02d`. -/
def pad2 (n : Nat) : String :=
  String.mk [Nat.digitChar (n / 10 % 10), Nat.digitChar (n % 10)]

/-- Zero-pad a number to three digits, as the `{ms:03d}` format in
metrics.py `unix2es` does; the millisecond field is always below 1000,
where this agrees with Python's `{:03d}`. -/
def pad3 (n : Nat) : String :=
  String.mk [Nat.digitChar (n / 100 % 10), Nat.digitChar (n / 10 % 10),
    Nat.digitChar (n % 10)]

/-- Four-digit year, agreeing with glibc's unpadded %Y on the years
1000-9999 that `gmtime` produces for the timestamps of interest. -/
def yearStr (y : Nat) : String :=
  String.mk [Nat.digitChar (y / 1000 % 10), Nat.digitChar (y / 100 % 10),
    Nat.digitChar (y / 10 % 10), Nat.digitChar (y % 10)]

/-- strftime('%Y-%m-%dT%H:%M:%S', tm). -/
def strftimeYmdHMS (tm : Tm) : String :=
  yearStr tm.year ++ "-" ++ pad2 tm.mon ++ "-" ++ pad2 tm.mday ++ "T" ++
    pad2 tm.hour ++ ":" ++ pad2 tm.minute ++ ":" ++ pad2 tm.sec

/-- metrics.py `unix2es` (lines 75-97): ISO 8601 UTC timestamp with
millisecond precision.  Timestamps are rationals (Python floats); the model
is valid for nonnegative inputs. -/
def unix2es (ts : ℚ) : String :=
  let secs := (Int.floor ts).toNat
  let ms := (Int.floor ((ts - Int.floor ts) * 1000)).toNat
  strftimeYmdHMS (gmtime secs) ++ "." ++ pad3 ms ++ "Z"

/-- cli.py line 218: `time.strftime('%Y-%m-%dT%H:%M:%SZ', time.gmtime())`,
the timestamp placed in trigger payloads, as a function of the current
UNIX time. -/
def eventTimestamp (t : Nat) : String :=
  strftimeYmdHMS (gmtime t) ++ "Z"

/-- metrics.py DEFAULT_AXES. -/
def DEFAULT_AXES : List String := ["host.name"]

/-- metrics.py DEFAULT_AGG. -/
def DEFAULT_AGG : String := "avg"

/-- metrics.py DEFAULT_WINDOW (300.0 seconds). -/
def DEFAULT_WINDOW : ℚ := 300

/-- Python `str.split(sep)` over character lists (single-character
separator, empty groups kept). -/
def splitChar (sep : Char) : List Char → List (List Char)
  | [] => [[]]
  | c :: rest =>
      let r := splitChar sep rest
      if c = sep then [] :: r
      else (c :: r.headD []) :: r.tail

/-- Python `str.split(sep)` on strings. -/
def pySplitStr (sep : Char) (s : String) : List String :=
  (splitChar sep s.data).map fun cs => String.mk cs

/-- Join character groups with a separator (inverse of `splitChar`). -/
def joinChar (sep : Char) : List (List Char) → List Char
  | [] => []
  | [g] => g
  | g :: gs => g ++ sep :: joinChar sep gs

/-- Python `s.rsplit(':', 1)` unpacked into two names: `none` models the
ValueError raised when there is no colon. -/
def rsplitColon1 (s : String) : Option (String × String) :=
  let parts := splitChar ':' s.data
  if parts.length == 1 then none
  else some (String.mk (joinChar ':' parts.dropLast),
    String.mk (parts.getLastD []))

/-- Python `s.startswith('.')`. -/
def startsWithDot (s : String) : Bool :=
  match s.data with
  | '.' :: _ => true
  | _ => false

/-- The try/except of metrics.py lines 189-192: split a "name[:agg]" spec
into name and aggregation, defaulting the aggregation. -/
def parseMetricAgg (spec : String) : String × String :=
  match rsplitColon1 spec with
  | some p => p
  | none => (spec, DEFAULT_AGG)

/-- The `full` helper of metrics.py lines 174-177: expand a leading-dot
name to module.metricset-qualified form. -/
def fullName (module metricset name : String) : String :=
  if startsWithDot name then module ++ "." ++ metricset ++ name else name

/-- One named metric aggregation attached at the innermost level by
metrics.py line 193: named by the original spec string, with the resolved
aggregation function and fully qualified field. -/
structure MetricBucket where
  name : String
  agg : String
  field : String
deriving DecidableEq, Repr

/-- The nested aggregation tree built by metrics.py lines 185-193: one
terms bucket per axis, in order, with the metric aggregations at the
innermost level. -/
inductive AggTree where
  | node : String → String → AggTree → AggTree
  | leafs : List MetricBucket → AggTree
deriving DecidableEq, Repr

/-- The aggregation-building loops of metrics.py lines 185-193. -/
def buildAggs (module metricset : String) (axes : List String)
    (metrics : List String) : AggTree :=
  match axes with
  | [] => .leafs (metrics.map fun spec =>
      let p := parseMetricAgg spec
      ⟨spec, p.2, fullName module metricset p.1⟩)
  | axis :: rest =>
      .node axis (fullName module metricset axis)
        (buildAggs module metricset rest metrics)

/-- The Elasticsearch DSL Search value built by metrics.py
`build_bucket_search`: index, the three filters, the aggregation tree, and
whether `s[:0]` suppressed result documents. -/
structure Search where
  index : String
  moduleFilter : String
  metricsetFilter : String
  rangeGte : String
  rangeLt : String
  aggs : AggTree
  sizeZero : Bool
deriving DecidableEq, Repr

/-- metrics.py `build_bucket_search` (lines 110-196).  `now` stands for
`time.time()` (used only when `end_time` is omitted); `none` models the
IndexError on an empty metrics list or a too-short first metric path. -/
def build_bucket_search (metrics : List String)
    (metricset : Option String := none) (module : Option String := none)
    (axes : List String := DEFAULT_AXES) (with_docs : Bool := false)
    (window : Option ℚ := none) (end_time : Option ℚ := none)
    (now : ℚ := 0) : Option Search := do
  let first ← metrics.head?
  let metric_path := pySplitStr '.' ((pySplitStr ':' first).headD "")
  let module_ ← match module with
    | some m => pure m
    | none => metric_path.head?
  let metricset_ ← match metricset with
    | some m => pure m
    | none => metric_path.get? 1
  let window_ := window.getD DEFAULT_WINDOW
  let end_ := end_time.getD now
  let start_ := end_ - window_
  pure {
    index := "metricbeat-*"
    moduleFilter := module_
    metricsetFilter := metricset_
    rangeGte := unix2es start_
    rangeLt := unix2es end_
    aggs := buildAggs module_ metricset_ axes metrics
    sizeZero := !with_docs }

/-- Raw aggregation-response nodes: a bucket container (`aggs[name]` that
iterates as (key, sub-aggs) buckets), a named-aggregation mapping, or a
scalar `.value` wrapper. -/
inductive Raw where
  | obj : List (String × Raw) → Raw
  | buckets : List (String × Raw) → Raw
  | value : Int → Raw

/-- Association-list lookup, modelling Python `aggs[name]` with KeyError
as `none`. -/
def lookupRaw : Raw → String → Option Raw
  | .obj es, name => es.lookup name
  | _, _ => none

def asBuckets : Raw → Option (List (String × Raw))
  | .buckets bs => some bs
  | _ => none

def asValue : Raw → Option Int
  | .value v => some v
  | _ => none

/-- Tabulated results: nested dicts keyed by axis value, bottoming out in a
metric-spec-to-value mapping (metrics.py docstring lines 206-209). -/
inductive Tab where
  | node : List (String × Tab) → Tab
  | leaf : List (String × Int) → Tab

/-- The recursive `_brb` of metrics.py lines 210-217; `none` models a
KeyError/AttributeError on a query/response mismatch. -/
def _brb (metrics : List String) : Raw → List String → Option Tab
  | r, [] =>
      (metrics.mapM fun m =>
        ((lookupRaw r m).bind asValue).map fun v => (m, v)).map Tab.leaf
  | r, axis :: rest =>
      ((lookupRaw r axis).bind asBuckets).bind fun bs =>
        (bs.mapM fun b => (_brb metrics b.2 rest).map fun t => (b.1, t)).map
          Tab.node

/-- metrics.py `build_result_buckets` (lines 199-219); the `Raw` argument
stands for `result.aggs`. -/
def build_result_buckets (result : Raw) (metrics : List String)
    (axes : List String := DEFAULT_AXES) : Option Tab :=
  _brb metrics result axes

/-- C5: with metric ".used.pct:avg", module "system" and metricset
"memory", the built query carries, inside the terms bucket for the default
host.name axis, one innermost aggregation named by the original spec
string, aggregating field "system.memory.used.pct" with "avg"; and
tabulating any raw tree shaped by that query recovers a leaf keyed exactly
".used.pct:avg" holding the tree's scalar aggregate. -/
theorem roundtrip_used_pct (now : ℚ) (k : String) (v : Int) :
    ((build_bucket_search [".used.pct:avg"] (some "memory") (some "system")
        DEFAULT_AXES false none none now).map Search.aggs =
      some (AggTree.node "host.name" "host.name"
        (AggTree.leafs [⟨".used.pct:avg", "avg", "system.memory.used.pct"⟩]))) ∧
    build_result_buckets
        (Raw.obj [("host.name",
          Raw.buckets [(k, Raw.obj [(".used.pct:avg", Raw.value v)])])])
        [".used.pct:avg"] DEFAULT_AXES =
      some (Tab.node [(k, Tab.leaf [(".used.pct:avg", v)])]) := by
  constructor
  · rfl
  · rfl

/-! SHA-256 over byte lists, with 32-bit words as `Nat` reduced mod 2^32,
modelling `hashlib.sha256` as called on cli.py line 213. -/

def rotr32 (x n : Nat) : Nat :=
  ((x >>> n) ||| (x <<< (32 - n))) % 4294967296

def bigSigma0 (x : Nat) : Nat := rotr32 x 2 ^^^ rotr32 x 13 ^^^ rotr32 x 22

def bigSigma1 (x : Nat) : Nat := rotr32 x 6 ^^^ rotr32 x 11 ^^^ rotr32 x 25

def smallSigma0 (x : Nat) : Nat := rotr32 x 7 ^^^ rotr32 x 18 ^^^ (x >>> 3)

def smallSigma1 (x : Nat) : Nat := rotr32 x 17 ^^^ rotr32 x 19 ^^^ (x >>> 10)

def chFn (x y z : Nat) : Nat := (x &&& y) ^^^ ((x ^^^ 4294967295) &&& z)

def majFn (x y z : Nat) : Nat := (x &&& y) ^^^ (x &&& z) ^^^ (y &&& z)

/-- The 64 SHA-256 round constants of FIPS 180-4, written in decimal. -/
def shaK : List Nat :=
  [1116352408, 1899447441, 3049323471, 3921009573, 961987163,
   1508970993, 2453635748, 2870763221, 3624381080, 310598401,
   607225278, 1426881987, 1925078388, 2162078206, 2614888103,
   3248222580, 3835390401, 4022224774, 264347078, 604807628,
   770255983, 1249150122, 1555081692, 1996064986, 2554220882,
   2821834349, 2952996808, 3210313671, 3336571891, 3584528711,
   113926993, 338241895, 666307205, 773529912, 1294757372,
   1396182291, 1695183700, 1986661051, 2177026350, 2456956037,
   2730485921, 2820302411, 3259730800, 3345764771, 3516065817,
   3600352804, 4094571909, 275423344, 430227734, 506948616,
   659060556, 883997877, 958139571, 1322822218, 1537002063,
   1747873779, 1955562222, 2024104815, 2227730452, 2361852424,
   2428436474, 2756734187, 3204031479, 3329325298]

/-- The eight SHA-256 initial hash values of FIPS 180-4, in decimal. -/
def shaH0 : List Nat :=
  [1779033703, 3144134277, 1013904242, 2773480762, 1359893119,
   2600822924, 528734635, 1541459225]

def beWord (bytes : List Nat) : Nat :=
  bytes.foldl (fun acc b => acc * 256 + b) 0

def be64 (n : Nat) : List Nat :=
  [n / 2 ^ 56 % 256, n / 2 ^ 48 % 256, n / 2 ^ 40 % 256, n / 2 ^ 32 % 256,
   n / 2 ^ 24 % 256, n / 2 ^ 16 % 256, n / 2 ^ 8 % 256, n % 256]

def be32 (n : Nat) : List Nat :=
  [n / 2 ^ 24 % 256, n / 2 ^ 16 % 256, n / 2 ^ 8 % 256, n % 256]

def padMsg (msg : List Nat) : List Nat :=
  let len := msg.length
  msg ++ [0x80] ++ List.replicate ((119 - len % 64) % 64) 0 ++ be64 (len * 8)

def extendW (w : List Nat) : Nat → List Nat
  | 0 => w
  | n + 1 =>
      let i := w.length
      extendW (w ++ [(w.getD (i - 16) 0 + smallSigma0 (w.getD (i - 15) 0) +
        w.getD (i - 7) 0 + smallSigma1 (w.getD (i - 2) 0)) % 4294967296]) n

def roundFn (st : List Nat) (kw : Nat × Nat) : List Nat :=
  match st with
  | [a, b, c, d, e, f, g, h] =>
      let t1 := (h + bigSigma1 e + chFn e f g + kw.1 + kw.2) % 4294967296
      let t2 := (bigSigma0 a + majFn a b c) % 4294967296
      [(t1 + t2) % 4294967296, a, b, c, (d + t1) % 4294967296, e, f, g]
  | _ => st

def compress (H : List Nat) (block : List Nat) : List Nat :=
  let w0 := (List.range 16).map fun i => beWord ((block.drop (4 * i)).take 4)
  let w := extendW w0 48
  let st := (shaK.zip w).foldl roundFn H
  (H.zip st).map fun p => (p.1 + p.2) % 4294967296

def sha256Blocks (H : List Nat) (msg : List Nat) : Nat → List Nat
  | 0 => H
  | n + 1 => sha256Blocks (compress H (msg.take 64)) (msg.drop 64) n

/-- SHA-256 digest (32 bytes) of a byte list.  Checked against hashlib's
FIPS 180-4 test vectors. -/
def sha256 (msg : List Nat) : List Nat :=
  let padded := padMsg msg
  (sha256Blocks shaH0 padded (padded.length / 64)).flatMap be32

/-! Standard base64 (RFC 4648 section 4) as implemented by Python
`base64.b64encode`, used on cli.py line 213. -/

def b64Alphabet : List Char :=
  "ABCDEFGHIJKLMNOPQRSTUVWXYZabcdefghijklmnopqrstuvwxyz0123456789+/".data

def b64Char (n : Nat) : Char := b64Alphabet.getD n 'A'

def b64Groups : List Nat → List Char
  | b0 :: b1 :: b2 :: rest =>
      let n := b0 * 65536 + b1 * 256 + b2
      b64Char (n / 262144) :: b64Char (n / 4096 % 64) ::
        b64Char (n / 64 % 64) :: b64Char (n % 64) :: b64Groups rest
  | [b0, b1] =>
      let n := b0 * 65536 + b1 * 256
      [b64Char (n / 262144), b64Char (n / 4096 % 64), b64Char (n / 64 % 64), '=']
  | [b0] =>
      let n := b0 * 65536
      [b64Char (n / 262144), b64Char (n / 4096 % 64), '=', '=']
  | [] => []

def b64encode (bytes : List Nat) : String := String.mk (b64Groups bytes)

/-! The values occurring in dedup-key items and custom_details: JSON
strings, numbers and null. -/

inductive JVal where
  | null : JVal
  | num : Int → JVal
  | str : String → JVal
deriving DecidableEq, Repr

def jvalRank : JVal → Nat
  | .null => 0
  | .num _ => 1
  | .str _ => 2

/-- Lexicographic comparison of character lists by code point, as Python
compares strings. -/
def charListLt : List Char → List Char → Bool
  | [], [] => false
  | [], _ :: _ => true
  | _ :: _, [] => false
  | c :: cs, d :: ds =>
      if c.toNat < d.toNat then true
      else if d.toNat < c.toNat then false
      else charListLt cs ds

def strLtB (a b : String) : Bool := charListLt a.data b.data

def strLeB (a b : String) : Bool := !(strLtB b a)

/-- Value comparison used when two items share a name.  Python would raise
on comparing values of different types; the cross-type rank order here is a
total-order completion (names are distinct in all actual key material, so
it is never exercised by the code paths modelled). -/
def jvalLe (a b : JVal) : Bool :=
  match a, b with
  | .num x, .num y => decide (x ≤ y)
  | .str x, .str y => strLeB x y
  | _, _ => decide (jvalRank a ≤ jvalRank b)

/-- Python tuple comparison on (name, value) pairs: by name, then value. -/
def itemLeB (a b : String × JVal) : Bool :=
  if a.1 = b.1 then jvalLe a.2 b.2 else strLtB a.1 b.1

def itemLe (a b : String × JVal) : Prop := itemLeB a b = true

instance : DecidableRel itemLe := fun _ _ => instDecidableEqBool _ _

/-- Python `sorted` on the item list (cli.py line 208). -/
def sortItems (l : List (String × JVal)) : List (String × JVal) :=
  List.insertionSort itemLe l

/-! json.dumps with its defaults (ensure_ascii=True, separators
(', ', ': ')) restricted to the shapes the code serializes: a list of
(string, value) pairs. -/

def hexDigitChar (n : Nat) : Char :=
  if n < 10 then Char.ofNat (48 + n) else Char.ofNat (87 + n)

def jsonEscapeChar (c : Char) : List Char :=
  if c = '"' then ['\\', '"']
  else if c = '\\' then ['\\', '\\']
  else if c = '\n' then ['\\', 'n']
  else if c = '\r' then ['\\', 'r']
  else if c = '\t' then ['\\', 't']
  else if c.toNat = 8 then ['\\', 'b']
  else if c.toNat = 12 then ['\\', 'f']
  else if c.toNat < 32 || c.toNat > 126 then
    ['\\', 'u', hexDigitChar (c.toNat / 4096 % 16),
     hexDigitChar (c.toNat / 256 % 16), hexDigitChar (c.toNat / 16 % 16),
     hexDigitChar (c.toNat % 16)]
  else [c]

def jsonStr (s : String) : List Char :=
  '"' :: s.data.flatMap jsonEscapeChar ++ ['"']

def jsonVal : JVal → List Char
  | .null => ['n', 'u', 'l', 'l']
  | .num n => (toString n).data
  | .str s => jsonStr s

def joinSep (sep : List Char) : List (List Char) → List Char
  | [] => []
  | [g] => g
  | g :: gs => g ++ sep ++ joinSep sep gs

def jsonItems (items : List (String × JVal)) : List Char :=
  '[' :: joinSep [',', ' ']
    (items.map fun it =>
      '[' :: jsonStr it.1 ++ [',', ' '] ++ jsonVal it.2 ++ [']']) ++ [']']

/-- `.encode()`: UTF-8 bytes; identical to code points on the ASCII-only
output that ensure_ascii JSON serialization produces. -/
def strBytes (cs : List Char) : List Nat := cs.map Char.toNat

/-- cli.py line 213 applied to an item list:
`b64encode(sha256(json.dumps(sorted(items)).encode()).digest())`.
Checked against Python's output end to end. -/
def buildDedupKey (items : List (String × JVal)) : String :=
  b64encode (sha256 (strBytes (jsonItems (sortItems items))))

/-- cli.py lines 206-213: the dedup key from qualified host-axis pairs,
metricset-axis pairs, and the sentinel (full_metric_spec, None) item. -/
def dedup_key (hostItems msItems : List (String × String))
    (fullMetric : String) : String :=
  buildDedupKey (((hostItems ++ msItems).map fun p => (p.1, JVal.str p.2)) ++
    [(fullMetric, JVal.null)])

theorem char_toNat_inj {a b : Char} (h : a.toNat = b.toNat) : a = b := by
  have h2 := congrArg Char.ofNat h
  rwa [Char.ofNat_toNat, Char.ofNat_toNat] at h2

theorem charListLt_irrefl (l : List Char) : charListLt l l = false := by
  induction l with
  | nil => rfl
  | cons c cs ih => simp [charListLt, ih]

theorem charListLt_asymm (l1 l2 : List Char) (h : charListLt l1 l2 = true) :
    charListLt l2 l1 = false := by
  induction l1 generalizing l2 with
  | nil =>
      cases l2 with
      | nil => simpa [charListLt] using h
      | cons d ds => rfl
  | cons c cs ih =>
      cases l2 with
      | nil => simp [charListLt] at h
      | cons d ds =>
          by_cases h1 : c.toNat < d.toNat
          · simp [charListLt, h1, show ¬ d.toNat < c.toNat by omega]
          · by_cases h2 : d.toNat < c.toNat
            · simp [charListLt, h1, h2] at h
            · rw [charListLt] at h ⊢
              simp [h1, h2] at h ⊢
              exact ih ds h

theorem charListLt_trans (l1 l2 l3 : List Char) (h12 : charListLt l1 l2 = true)
    (h23 : charListLt l2 l3 = true) : charListLt l1 l3 = true := by
  induction l1 generalizing l2 l3 with
  | nil =>
      cases l3 with
      | nil =>
          cases l2 with
          | nil => exact h12
          | cons d ds => simp [charListLt] at h23
      | cons e es => rfl
  | cons c cs ih =>
      cases l2 with
      | nil => simp [charListLt] at h12
      | cons d ds =>
          cases l3 with
          | nil => simp [charListLt] at h23
          | cons e es =>
              rw [charListLt] at h12 h23 ⊢
              by_cases hcd : c.toNat < d.toNat
              · by_cases hde : d.toNat < e.toNat
                · simp [show c.toNat < e.toNat by omega]
                · by_cases hed : e.toNat < d.toNat
                  · simp [hde, hed] at h23
                  · simp [show c.toNat < e.toNat by omega]
              · by_cases hdc : d.toNat < c.toNat
                · simp [hcd, hdc] at h12
                · by_cases hde : d.toNat < e.toNat
                  · simp [show c.toNat < e.toNat by omega]
                  · by_cases hed : e.toNat < d.toNat
                    · simp [hde, hed] at h23
                    · simp [hcd, hdc] at h12
                      simp [hde, hed] at h23
                      simp [show ¬ c.toNat < e.toNat by omega,
                        show ¬ e.toNat < c.toNat by omega]
                      exact ih ds es h12 h23

theorem charListLt_total (l1 l2 : List Char) (h : l1 ≠ l2) :
    charListLt l1 l2 = true ∨ charListLt l2 l1 = true := by
  induction l1 generalizing l2 with
  | nil =>
      cases l2 with
      | nil => exact absurd rfl h
      | cons d ds => exact Or.inl rfl
  | cons c cs ih =>
      cases l2 with
      | nil => exact Or.inr rfl
      | cons d ds =>
          by_cases hcd : c.toNat < d.toNat
          · exact Or.inl (by simp [charListLt, hcd])
          · by_cases hdc : d.toNat < c.toNat
            · exact Or.inr (by simp [charListLt, hdc, hcd])
            · have hc : c = d := char_toNat_inj (by omega)
              have hcs : cs ≠ ds := by
                intro hh
                exact h (by rw [hc, hh])
              rcases ih ds hcs with h1 | h1
              · exact Or.inl (by simp [charListLt, hcd, hdc, h1])
              · exact Or.inr (by simp [charListLt, hcd, hdc, hc, h1,
                  charListLt_irrefl])

theorem strLtB_asymm (a b : String) (h : strLtB a b = true) :
    strLtB b a = false := charListLt_asymm a.data b.data h

theorem strLtB_total (a b : String) (h : a ≠ b) :
    strLtB a b = true ∨ strLtB b a = true :=
  charListLt_total a.data b.data fun hd => h (String.ext hd)

theorem strLtB_irrefl (a : String) : strLtB a a = false :=
  charListLt_irrefl a.data

theorem strLtB_trans (a b c : String) (h1 : strLtB a b = true)
    (h2 : strLtB b c = true) : strLtB a c = true :=
  charListLt_trans a.data b.data c.data h1 h2

theorem strLtB_ne (a b : String) (h : strLtB a b = true) : a ≠ b := by
  intro hh
  rw [hh, strLtB_irrefl] at h
  cases h

theorem not_strLtB (a b : String) (h : strLtB a b = false) :
    a = b ∨ strLtB b a = true := by
  by_cases he : a = b
  · exact Or.inl he
  · rcases strLtB_total a b he with h1 | h1
    · rw [h1] at h; cases h
    · exact Or.inr h1

theorem strLeB_trans (a b c : String) (h1 : strLeB a b = true)
    (h2 : strLeB b c = true) : strLeB a c = true := by
  rw [strLeB, Bool.not_eq_true'] at h1 h2 ⊢
  rcases not_strLtB b a h1 with hba | hba
  · rcases not_strLtB c b h2 with hcb | hcb
    · rw [hcb, hba, strLtB_irrefl]
    · rw [← hba]
      exact strLtB_asymm b c hcb
  · rcases not_strLtB c b h2 with hcb | hcb
    · rw [hcb]
      exact strLtB_asymm a b hba
    · exact strLtB_asymm a c (strLtB_trans a b c hba hcb)

theorem strLeB_total (a b : String) :
    strLeB a b = true ∨ strLeB b a = true := by
  rw [strLeB, strLeB, Bool.not_eq_true', Bool.not_eq_true']
  by_cases h : strLtB b a = true
  · exact Or.inr (strLtB_asymm b a h)
  · exact Or.inl (Bool.not_eq_true _ ▸ eq_false_of_ne_true h)

theorem strLeB_antisymm (a b : String) (h1 : strLeB a b = true)
    (h2 : strLeB b a = true) : a = b := by
  rw [strLeB, Bool.not_eq_true'] at h1 h2
  rcases not_strLtB b a h1 with h | h
  · exact h.symm
  · rw [h] at h2
    cases h2

theorem jvalLe_total (a b : JVal) : jvalLe a b = true ∨ jvalLe b a = true := by
  cases a <;> cases b <;> simp [jvalLe, jvalRank] <;>
    first
      | omega
      | exact strLeB_total _ _
      | exact Int.le_total _ _

theorem jvalLe_trans (a b c : JVal) (h1 : jvalLe a b = true)
    (h2 : jvalLe b c = true) : jvalLe a c = true := by
  cases a <;> cases b <;> cases c <;>
    simp [jvalLe, jvalRank] at h1 h2 ⊢ <;>
    first
      | omega
      | exact strLeB_trans _ _ _ h1 h2

theorem jvalLe_antisymm (a b : JVal) (h1 : jvalLe a b = true)
    (h2 : jvalLe b a = true) : a = b := by
  cases a <;> cases b <;> simp [jvalLe, jvalRank] at h1 h2 ⊢ <;>
    first
      | omega
      | exact strLeB_antisymm _ _ h1 h2

instance : IsTotal (String × JVal) itemLe := by
  constructor
  intro a b
  unfold itemLe itemLeB
  by_cases h : a.1 = b.1
  · simp [h]
    exact jvalLe_total a.2 b.2
  · have h2 : ¬ b.1 = a.1 := fun hh => h hh.symm
    simp [h, h2]
    exact strLtB_total a.1 b.1 h

instance : IsTrans (String × JVal) itemLe := by
  constructor
  intro a b c h1 h2
  unfold itemLe itemLeB at h1 h2 ⊢
  by_cases hab : a.1 = b.1
  · by_cases hbc : b.1 = c.1
    · have hac : a.1 = c.1 := hab.trans hbc
      rw [if_pos hab] at h1
      rw [if_pos hbc] at h2
      rw [if_pos hac]
      exact jvalLe_trans _ _ _ h1 h2
    · have hac : ¬ a.1 = c.1 := by rw [hab]; exact hbc
      rw [if_neg hbc] at h2
      rw [if_neg hac, hab]
      exact h2
  · by_cases hbc : b.1 = c.1
    · have hac : ¬ a.1 = c.1 := by rw [← hbc]; exact hab
      rw [if_neg hab] at h1
      rw [if_neg hac, ← hbc]
      exact h1
    · rw [if_neg hab] at h1
      rw [if_neg hbc] at h2
      have h3 := strLtB_trans _ _ _ h1 h2
      rw [if_neg (strLtB_ne _ _ h3)]
      exact h3

instance : IsAntisymm (String × JVal) itemLe := by
  constructor
  intro a b h1 h2
  unfold itemLe itemLeB at h1 h2
  by_cases hab : a.1 = b.1
  · rw [if_pos hab] at h1
    rw [if_pos hab.symm] at h2
    have hv := jvalLe_antisymm _ _ h1 h2
    obtain ⟨a1, a2⟩ := a
    obtain ⟨b1, b2⟩ := b
    simp at hab hv
    rw [hab, hv]
  · rw [if_neg hab] at h1
    rw [if_neg (fun hh => hab hh.symm)] at h2
    rw [strLtB_asymm _ _ h1] at h2
    cases h2

/-- Sorting is invariant under permutation of the input items. -/
theorem sortItems_perm_eq (l1 l2 : List (String × JVal)) (h : l1.Perm l2) :
    sortItems l1 = sortItems l2 :=
  List.eq_of_perm_of_sorted
    ((List.perm_insertionSort itemLe l1).trans
      (h.trans (List.perm_insertionSort itemLe l2).symm))
    (List.sorted_insertionSort itemLe l1)
    (List.sorted_insertionSort itemLe l2)

/-- cli.py HOST_AXES (line 21). -/
def HOST_AXES : List String := ["cloud.region", "cloud.instance.id"]

/-- Python str() of an optional string, as an f-string renders it. -/
def pyStrOptStr : Option String → String
  | some s => s
  | none => "None"

/-- The trigger payload dict of cli.py lines 226-234 (`class` is `cls`
here, `class` being reserved). -/
structure Payload where
  summary : String
  source : String
  severity : String
  timestamp : String
  component : String
  cls : String
  custom_details : List (String × JVal)
deriving DecidableEq, Repr

/-- The event body of cli.py lines 214-235. -/
structure Body where
  dedup_key : String
  event_action : String
  payload : Option Payload
deriving DecidableEq, Repr

/-- Python `'/'.join(...)` over strings. -/
def joinSlash (parts : List String) : String :=
  String.mk (joinChar '/' (parts.map String.data))

/-- The dedup key computed for one flattened leaf path `k` (cli.py lines
199-213): qualified host-axis and metricset-axis pairs plus the metric
sentinel. -/
def leafDedupKey (module metricset : String) (axes : List String)
    (k : List String) : String :=
  dedup_key
    ((HOST_AXES.map (fullName module metricset)).zip (k.take HOST_AXES.length))
    ((axes.map (fullName module metricset)).zip
      ((k.drop HOST_AXES.length).dropLast))
    (fullName module metricset (k.getLastD ""))

/-- The per-leaf body of cli.py main's inner loop (lines 197-235): path
components `k` (axis values then metric spec), value `v`, at UNIX time
`t`.  `none` models the two asserts (lines 198 and 203), a raised KeyError
on the metric-config lookup (line 204), and the assertion inside
`_check_val_against_thresh`. -/
def processLeaf (module metricset : String) (axes : List String)
    (metric_configs : List (String × ThreshConfig)) (k : List String)
    (v : Int) (t : Nat) : Option Body :=
  if k.length < HOST_AXES.length + 1 then none
  else if axes.length ≠ ((k.drop HOST_AXES.length).dropLast).length then none
  else
    (metric_configs.lookup (k.getLastD "")).bind fun metric_config =>
      (_check_val_against_thresh v metric_config).bind fun sevdiag =>
        let full_metric_spec := fullName module metricset (k.getLastD "")
        let key := leafDedupKey module metricset axes k
        match sevdiag.1 with
        | none => some ⟨key, "resolve", none⟩
        | some severity =>
            -- The zip objects host_axes_items and metricset_axes_items of
            -- cli.py lines 206-207 are single-use iterators, exhausted by
            -- the sorted(chain(...)) that fed the dedup key on line 208;
            -- the dict updates on lines 220-221 therefore add nothing, and
            -- custom_details holds only the line-222 metric entry.
            let custom_details : List (String × JVal) :=
              [(full_metric_spec, JVal.num v)]
            let message := metric_config.message.getD "Metric out of range"
            some ⟨key, "trigger", some {
              summary := message ++ ": " ++ full_metric_spec ++ " " ++
                pyStrOptStr sevdiag.2,
              source := joinSlash (k.take HOST_AXES.length),
              severity := severity,
              timestamp := eventTimestamp t,
              component := joinSlash ((k.drop HOST_AXES.length).dropLast),
              cls := message,
              custom_details := custom_details }⟩

/-- Shape test for ISO-8601 UTC with second precision,
YYYY-MM-DDThh:mm:ssZ. -/
def isSecIsoForm (s : String) : Bool :=
  match s.data with
  | [y1, y2, y3, y4, '-', m1, m2, '-', d1, d2, 'T',
     h1, h2, ':', n1, n2, ':', s1, s2, 'Z'] =>
      [y1, y2, y3, y4, m1, m2, d1, d2, h1, h2, n1, n2, s1, s2].all Char.isDigit
  | _ => false

/-- Shape test for the claim's millisecond-precision form
YYYY-MM-DDThh:mm:ss.mmmZ, modelled from the spec's words. -/
def isMsIsoForm (s : String) : Bool :=
  match s.data with
  | [y1, y2, y3, y4, '-', m1, m2, '-', d1, d2, 'T',
     h1, h2, ':', n1, n2, ':', s1, s2, '.', f1, f2, f3, 'Z'] =>
      [y1, y2, y3, y4, m1, m2, d1, d2, h1, h2, n1, n2, s1, s2, f1, f2, f3].all
        Char.isDigit
  | _ => false

theorem isDigit_digitChar_mod10 (x : Nat) :
    (Nat.digitChar (x % 10)).isDigit = true := by
  have hd : x % 10 < 10 := Nat.mod_lt _ (by omega)
  set d := x % 10 with hdd
  interval_cases d <;> decide

/-- C9 counterexample: a concrete trigger event whose payload timestamp is
"1970-01-01T00:00:03Z", which does not have the millisecond-precision form
the claim states (cli.py line 218 formats without milliseconds). -/
theorem trigger_timestamp_not_ms :
    (processLeaf "system" "cpu" [] [(".total.pct:avg", ladder4 90 95 97 99)]
        ["us-east-1", "i-001", ".total.pct:avg"] 97 3).map
        (fun b => b.payload.map fun p => (p.timestamp, isMsIsoForm p.timestamp)) =
      some (some ("1970-01-01T00:00:03Z", false)) := by rfl

/-- C9 (amended): every trigger event's timestamp is ISO-8601 UTC with
SECOND precision, YYYY-MM-DDThh:mm:ssZ — not millisecond.  The second
conjunct ties the payload timestamp of a representative trigger event to
`eventTimestamp` at every evaluation time. -/
theorem trigger_timestamp_sec_form :
    (∀ t : Nat, isSecIsoForm (eventTimestamp t) = true) ∧
    (∀ t : Nat,
      (processLeaf "system" "cpu" [] [(".total.pct:avg", ladder4 90 95 97 99)]
          ["us-east-1", "i-001", ".total.pct:avg"] 97 t).map
          (fun b => b.payload.map Payload.timestamp) =
        some (some (eventTimestamp t))) := by
  constructor
  · intro t
    have hdata : (eventTimestamp t).data =
        [Nat.digitChar ((gmtime t).year / 1000 % 10),
         Nat.digitChar ((gmtime t).year / 100 % 10),
         Nat.digitChar ((gmtime t).year / 10 % 10),
         Nat.digitChar ((gmtime t).year % 10), '-',
         Nat.digitChar ((gmtime t).mon / 10 % 10),
         Nat.digitChar ((gmtime t).mon % 10), '-',
         Nat.digitChar ((gmtime t).mday / 10 % 10),
         Nat.digitChar ((gmtime t).mday % 10), 'T',
         Nat.digitChar ((gmtime t).hour / 10 % 10),
         Nat.digitChar ((gmtime t).hour % 10), ':',
         Nat.digitChar ((gmtime t).minute / 10 % 10),
         Nat.digitChar ((gmtime t).minute % 10), ':',
         Nat.digitChar ((gmtime t).sec / 10 % 10),
         Nat.digitChar ((gmtime t).sec % 10), 'Z'] := by
      rfl
    rw [isSecIsoForm, hdata]
    simp [isDigit_digitChar_mod10]
  · intro t
    rfl

/-- URL-safe characters, modelled from the claim's words (the base64url
alphabet of RFC 4648 section 5 plus padding). -/
def isUrlSafeChar (c : Char) : Bool :=
  c.isAlphanum || c = '-' || c = '_' || c = '='

set_option maxRecDepth 400000 in
/-- C8 counterexample: for a concrete axis-coordinate/metric combination,
the emitted dedup key contains characters outside every URL-safe alphabet
(the code uses standard base64, whose alphabet has '+' and '/'). -/
theorem dedup_key_not_urlsafe :
    ((dedup_key [("cloud.region", "us-east-1"), ("cloud.instance.id", "i-001")]
        [] "system.cpu.total.pct:avg").data.all isUrlSafeChar) = false := by
  decide

theorem b64Char_mem (n : Nat) : b64Char n ∈ b64Alphabet := by
  rw [b64Char]
  rcases Nat.lt_or_ge n b64Alphabet.length with h | h
  · rw [List.getD_eq_getElem _ _ h]
    exact List.getElem_mem h
  · rw [List.getD_eq_default _ _ h]
    decide

theorem b64Groups_chars (bytes : List Nat) :
    ∀ c ∈ b64Groups bytes, c ∈ b64Alphabet ∨ c = '=' := by
  induction bytes using b64Groups.induct with
  | case1 b0 b1 b2 rest ih =>
      intro c hc
      simp only [b64Groups, List.mem_cons] at hc
      rcases hc with rfl | rfl | rfl | rfl | h
      · exact Or.inl (b64Char_mem _)
      · exact Or.inl (b64Char_mem _)
      · exact Or.inl (b64Char_mem _)
      · exact Or.inl (b64Char_mem _)
      · exact ih c h
  | case2 b0 b1 =>
      intro c hc
      simp only [b64Groups, List.mem_cons, List.not_mem_nil, or_false] at hc
      rcases hc with rfl | rfl | rfl | rfl
      · exact Or.inl (b64Char_mem _)
      · exact Or.inl (b64Char_mem _)
      · exact Or.inl (b64Char_mem _)
      · exact Or.inr rfl
  | case3 b0 =>
      intro c hc
      simp only [b64Groups, List.mem_cons, List.not_mem_nil, or_false] at hc
      rcases hc with rfl | rfl | rfl | rfl
      · exact Or.inl (b64Char_mem _)
      · exact Or.inl (b64Char_mem _)
      · exact Or.inr rfl
      · exact Or.inr rfl
  | case4 =>
      intro c hc
      simp [b64Groups] at hc

/-- C8 (amended): every character of every emitted dedup key belongs to the
STANDARD base64 alphabet (A-Z, a-z, 0-9, '+', '/') or is the '=' padding —
the encoding is standard base64 of the SHA-256 digest of the canonically
serialized sorted pair list, not a URL-safe encoding. -/
theorem dedup_key_standard_base64 (items : List (String × JVal)) (c : Char)
    (hc : c ∈ (buildDedupKey items).data) : c ∈ b64Alphabet ∨ c = '=' :=
  b64Groups_chars _ c hc

set_option maxRecDepth 400000 in
/-- C8 amended-claim witness at a concrete key and character. -/
theorem dedup_key_standard_base64_witness : 'x' ∈ b64Alphabet ∨ 'x' = '=' :=
  dedup_key_standard_base64
    [("cloud.region", JVal.str "us-east-1"),
     ("cloud.instance.id", JVal.str "i-001"),
     ("system.cpu.total.pct:avg", JVal.null)] 'x' (by decide)

/-- Whether the threshold evaluation raises depends only on the ladder,
never on the value. -/
theorem check_none_iff_val_indep (v1 v2 : Int) (cfg : ThreshConfig) :
    _check_val_against_thresh v1 cfg = none ↔
      _check_val_against_thresh v2 cfg = none := by
  rw [check_assertion_iff, check_assertion_iff]

theorem map_key_bind_same {α : Type} (o : Option α) (F G : α → Option Body)
    (h : ∀ a, (F a).map Body.dedup_key = (G a).map Body.dedup_key) :
    (o.bind F).map Body.dedup_key = (o.bind G).map Body.dedup_key := by
  cases o with
  | none => rfl
  | some a =>
      simp only [Option.some_bind]
      exact h a

theorem map_key_bind_pair {α : Type} (o1 o2 : Option α) (F G : α → Option Body)
    (hnone : o1 = none ↔ o2 = none)
    (h : ∀ a b, (F a).map Body.dedup_key = (G b).map Body.dedup_key) :
    (o1.bind F).map Body.dedup_key = (o2.bind G).map Body.dedup_key := by
  cases o1 with
  | none =>
      rw [hnone.mp rfl]
      rfl
  | some a =>
      cases o2 with
      | none => exact absurd (hnone.mpr rfl) (by simp)
      | some b =>
          simp only [Option.some_bind]
          exact h a b

set_option maxRecDepth 40000 in
/-- C4: the dedup key is a deterministic function of the set of axis
name/value pairs and the full metric name only.  First conjunct: permuting
the supplied axis pairs (including across the host/metricset split) yields
an identical key.  Second conjunct: for a fixed leaf path the key emitted
by the main loop is identical in every evaluation, whatever the observed
value and evaluation time. -/
theorem dedup_key_spec :
    (∀ (h1 m1 h2 m2 : List (String × String)) (metric : String),
        (h1 ++ m1).Perm (h2 ++ m2) →
        dedup_key h1 m1 metric = dedup_key h2 m2 metric) ∧
    (∀ (module metricset : String) (axes : List String)
        (metric_configs : List (String × ThreshConfig)) (k : List String)
        (v1 v2 : Int) (t1 t2 : Nat),
        (processLeaf module metricset axes metric_configs k v1 t1).map
            Body.dedup_key =
          (processLeaf module metricset axes metric_configs k v2 t2).map
            Body.dedup_key) := by
  constructor
  · intro h1 m1 h2 m2 metric hperm
    unfold dedup_key buildDedupKey
    rw [sortItems_perm_eq _ _
      ((hperm.map fun p => (p.1, JVal.str p.2)).append_right
        [(metric, JVal.null)])]
  · intro module metricset axes metric_configs k v1 v2 t1 t2
    unfold processLeaf
    split
    · rfl
    · split
      · rfl
      · apply map_key_bind_same
        intro cfg
        apply map_key_bind_pair _ _ _ _ (check_none_iff_val_indep v1 v2 cfg)
        intro a b
        rcases a with ⟨s1, d1⟩
        rcases b with ⟨s2, d2⟩
        cases s1 <;> cases s2 <;> rfl

/-- C4 witness: a concrete permutation of the axis pairs yields an
identical key. -/
theorem dedup_key_spec_witness :
    dedup_key [("cloud.region", "us-east-1"), ("cloud.instance.id", "i-001")]
        [] "system.cpu.total.pct:avg" =
      dedup_key [("cloud.instance.id", "i-001")]
        [("cloud.region", "us-east-1")] "system.cpu.total.pct:avg" :=
  dedup_key_spec.1 _ _ _ _ "system.cpu.total.pct:avg" (by decide)

/-- C1: at a concrete trigger leaf with two host-axis values, the emitted
custom_details is exactly the single metric entry — the axis name/value
pairs the claim (and cli.py lines 220-221) intend to merge are lost,
because the zip iterators were exhausted computing the dedup key. -/
theorem custom_details_only_metric :
    (processLeaf "system" "cpu" [] [(".total.pct:avg", ladder4 90 95 97 99)]
        ["us-east-1", "i-001", ".total.pct:avg"] 97 3).map
        (fun b => (b.event_action, b.payload.map Payload.custom_details)) =
      some ("trigger", some [("system.cpu.total.pct:avg", JVal.num 97)]) := by
  rfl

end Offkey
